import Mathlib

/-!
Shallow embedding of the Session & Routing Engine of `src/main.py`
(a Telegram support-relay bot).  Database tables become lists of row
structures, timestamps become natural numbers supplied by the caller,
and each handler becomes a pure function from the database state to a
new state paired with its observable reply.
-/

namespace Relay

/-- Row of the `users` table (`class User`). -/
structure UserRow where
  id : Nat
  telegram_id : Option Int
  username : Option String
  first_seen : Nat
  last_seen : Nat
deriving DecidableEq

/-- Row of the `messages` table (`class Message`). -/
structure MessageRow where
  id : Nat
  user_id : Nat
  from_admin : Bool
  content_type : String
  text : Option String
  file_id : Option String
  seen_by_admin : Bool
  timestamp : Nat
deriving DecidableEq

/-- Row of the `admin_sessions` table (`class AdminSession`). -/
structure AdminSessionRow where
  id : Nat
  admin_id : Int
  active_user_id : Option Nat
  active_group_id : Option Nat
  session_type : String
  is_active : Bool
  started_at : Nat
  ended_at : Option Nat
deriving DecidableEq

/-- Row of the `user_queue` table (`class UserQueue`). -/
structure QueueEntry where
  user_id : Nat
  created_at : Nat
deriving DecidableEq

/-- Row of the `auto_replies` table (`class AutoReply`). -/
structure AutoReplyRow where
  keyword : String
  reply_text : String
  reply_photo_file_id : Option String
deriving DecidableEq

/-- Row of the `groups` table (`class Group`). -/
structure GroupRow where
  id : Nat
  telegram_id : Int
  title : String
deriving DecidableEq

/-- The whole database state, plus primary-key counters (SQLite
autoincrement primary keys start at 1). -/
structure DB where
  users : List UserRow
  sessions : List AdminSessionRow
  messages : List MessageRow
  queue : List QueueEntry
  groups : List GroupRow
  autoReplies : List AutoReplyRow
  nextUserId : Nat
  nextSessionId : Nat
  nextMessageId : Nat
deriving DecidableEq

/-- The empty database produced by `init_db`. -/
def DB.empty : DB :=
  { users := [], sessions := [], messages := [], queue := [], groups := [],
    autoReplies := [], nextUserId := 1, nextSessionId := 1, nextMessageId := 1 }

/-- A Telegram user as seen by a handler (`update.effective_user`):
its platform id and optional username. -/
structure TgUser where
  id : Int
  username : Option String
deriving DecidableEq

/-- Python truthiness of an optional string (`if username:`):
`None` and the empty string are falsy. -/
def truthyStr : Option String → Bool
  | none => false
  | some s => ¬ s = ""

/-- `username.lstrip("@")`. -/
def stripAt (s : String) : String :=
  String.mk (s.data.dropWhile (fun c => c = '@'))

/-- Lowercased character list of a string (`str.lower()`; the source
data is ASCII usernames and keywords). -/
def lowerL (s : String) : List Char :=
  s.data.map Char.toLower

/-- Needle is a prefix of the haystack (character lists). -/
def isPrefChars : List Char → List Char → Bool
  | [], _ => true
  | _ :: _, [] => false
  | a :: as, b :: bs => a = b && isPrefChars as bs

/-- Python's `needle in hay` substring containment on character lists. -/
def containsSub (needle hay : List Char) : Bool :=
  hay.tails.any (fun t => isPrefChars needle t)

/-- Does the user row match a username case-insensitively
(`func.lower(User.username) == username.lower()`; a SQL `NULL`
username never matches)? -/
def unameMatchCI (u : UserRow) (n : String) : Bool :=
  match u.username with
  | some s => lowerL s = lowerL n
  | none => false

/-- `db.query(User).filter_by(telegram_id=tid).first()`. -/
def findByTid (db : DB) (tid : Int) : Option UserRow :=
  db.users.find? (fun u => u.telegram_id = some tid)

/-- `db.query(User).filter(func.lower(User.username) == n.lower()).first()`. -/
def findByUnameCI (db : DB) (n : String) : Option UserRow :=
  db.users.find? (fun u => unameMatchCI u n)

/-- `db.query(User).filter_by(id=uid).first()`. -/
def findUserById (db : DB) (uid : Nat) : Option UserRow :=
  db.users.find? (fun u => u.id = uid)

/-- The predicate of `get_active_session`: the row belongs to this
admin and is active. -/
def activeFor (a : Int) (s : AdminSessionRow) : Bool :=
  s.admin_id = a && s.is_active

/-- `get_active_session(db, admin_id)`. -/
def get_active_session (db : DB) (a : Int) : Option AdminSessionRow :=
  db.sessions.find? (activeFor a)

/-- Number of active session rows a given admin holds. -/
def countActiveL (l : List AdminSessionRow) (a : Int) : Nat :=
  l.countP (activeFor a)

/-- Number of active session rows a given admin holds in the database. -/
def countActive (db : DB) (a : Int) : Nat :=
  countActiveL db.sessions a

/-- The single-active-session invariant: at most one active session row
per admin. -/
def Inv (db : DB) : Prop :=
  ∀ a : Int, countActive db a ≤ 1

/-- Mutate the first row satisfying `p` in place, as the ORM does after
a `.first()` lookup. -/
def updateFirst {α : Type} (p : α → Bool) (f : α → α) : List α → List α
  | [] => []
  | x :: rest => if p x then f x :: rest else x :: updateFirst p f rest

/-- Deactivate the first active session row of this admin, as
`get_active_session` followed by `existing.is_active = False;
existing.ended_at = now` does (under the invariant there is at most
one such row). -/
def deactivateFirst (a : Int) (t : Nat) (l : List AdminSessionRow) : List AdminSessionRow :=
  updateFirst (activeFor a) (fun s => { s with is_active := false, ended_at := some t }) l

/-- The reconciliation predicate of `get_or_create_user`: the sender
has a truthy username, the row's username matches it case-insensitively
and the row's platform id is still null. -/
def reconcilable (tg : TgUser) (u : UserRow) : Bool :=
  truthyStr tg.username && unameMatchCI u (tg.username.getD "") && u.telegram_id = none

/-- The in-place update applied to a row found by platform id. -/
def touchSeen (tg : TgUser) (now : Nat) (v : UserRow) : UserRow :=
  { v with last_seen := now, username := tg.username }

/-- The in-place update that claims a username-only row for its first
real contact. -/
def claimRow (tg : TgUser) (now : Nat) (v : UserRow) : UserRow :=
  { v with telegram_id := some tg.id, username := tg.username, last_seen := now }

/-- `get_or_create_user(db, tg_user)`: lookup by platform id; else, when
the sender has a (truthy) username, reconcile with a username-only row
whose platform id is still null; else insert a fresh row.  Returns the
updated database and the row id of the resulting user. -/
def get_or_create_user (tg : TgUser) (now : Nat) (db : DB) : DB × Nat :=
  match db.users.find? (fun u => u.telegram_id = some tg.id) with
  | some u =>
    ({ db with users := updateFirst (fun v => v.telegram_id = some tg.id)
                          (touchSeen tg now) db.users }, u.id)
  | none =>
    match db.users.find? (reconcilable tg) with
    | some u =>
      ({ db with users := updateFirst (reconcilable tg) (claimRow tg now) db.users },
       u.id)
    | none =>
      let nu : UserRow :=
        { id := db.nextUserId, telegram_id := some tg.id, username := tg.username,
          first_seen := now, last_seen := now }
      ({ db with users := db.users ++ [nu], nextUserId := db.nextUserId + 1 }, nu.id)

/-- `enqueue_user(db, user_id)`: insert a queue entry unless one already
exists for this user. -/
def enqueue_user (uid : Nat) (now : Nat) (q : List QueueEntry) : List QueueEntry :=
  if q.any (fun e => e.user_id = uid) then q else q ++ [⟨uid, now⟩]

/-- The row `order_by(UserQueue.created_at).first()` returns: the entry
with the smallest `created_at`, the earlier-listed one on ties. -/
def minByCreated : List QueueEntry → Option QueueEntry
  | [] => none
  | e :: rest =>
    match minByCreated rest with
    | none => some e
    | some m => if m.created_at < e.created_at then some m else some e

/-- Remove the first occurrence of a row from the queue (`db.delete`). -/
def removeEntry (e : QueueEntry) : List QueueEntry → List QueueEntry
  | [] => []
  | x :: rest => if x = e then rest else x :: removeEntry e rest

/-- `dequeue_next_user(db)`: pop the entry with the earliest
`created_at`, returning its `user_id` and the remaining queue. -/
def dequeue_next_user (q : List QueueEntry) : Option Nat × List QueueEntry :=
  match minByCreated q with
  | none => (none, q)
  | some m => (some m.user_id, removeEntry m q)

/-- One auto-reply keyword matches the (already lowercased) text. -/
def kwMatches (tl : List Char) (ar : AutoReplyRow) : Bool :=
  containsSub (lowerL ar.keyword) tl

/-- The `for ar in auto_replies` loop of `check_auto_reply`. -/
def autoReplyScan (tl : List Char) : List AutoReplyRow → Option (String × Option String)
  | [] => none
  | ar :: rest =>
    if kwMatches tl ar then some (ar.reply_text, ar.reply_photo_file_id)
    else autoReplyScan tl rest

/-- `check_auto_reply(db, text)`: nothing to do when the text is falsy
(absent or empty), otherwise return the first configured auto-reply
whose lowercased keyword occurs in the lowercased text. -/
def check_auto_reply (text : Option String) (ars : List AutoReplyRow) :
    Option (String × Option String) :=
  match text with
  | none => none
  | some t => if t = "" then none else autoReplyScan (lowerL t) ars

/-- Observable outcome of `handle_start_live_username`. -/
inductive StartReply where
  | refusedActive
  | started (notContacted : Bool)
deriving DecidableEq

/-- Observable outcome of `start_group_session`. -/
inductive GroupStartReply where
  | groupNotFound
  | startedGroup (gid : Nat)
deriving DecidableEq

/-- Observable outcome of `end_live_session`. -/
inductive EndReply where
  | nothingToEnd
  | handedOff (uid : Nat)
  | queueEmpty
deriving DecidableEq

/-- A fresh active user-session row (`AdminSession(admin_id=...,
active_user_id=..., is_active=True, started_at=now)`;
`session_type` defaults to `"user"`). -/
def mkUserSession (sid : Nat) (a : Int) (uid : Nat) (t : Nat) : AdminSessionRow :=
  { id := sid, admin_id := a, active_user_id := some uid, active_group_id := none,
    session_type := "user", is_active := true, started_at := t, ended_at := none }

/-- The placeholder row `User(telegram_id=None, username=username)`
created when a live session targets a user never seen before. -/
def placeholderUser (uid : Nat) (un : String) (t : Nat) : UserRow :=
  { id := uid, telegram_id := none, username := some un, first_seen := t, last_seen := t }

/-- A fresh active group-session row (`AdminSession(admin_id=...,
active_group_id=..., session_type="group", is_active=True,
started_at=now)`). -/
def mkGroupSession (sid : Nat) (a : Int) (gid : Nat) (t : Nat) : AdminSessionRow :=
  { id := sid, admin_id := a, active_user_id := none, active_group_id := some gid,
    session_type := "group", is_active := true, started_at := t, ended_at := none }

/-- Mark every inbound message of this user as seen
(`filter_by(user_id=..., from_admin=False).update(seen_by_admin=True)`). -/
def markUserSeen (uid : Nat) (l : List MessageRow) : List MessageRow :=
  l.map (fun m =>
    if m.user_id = uid && ¬ m.from_admin then { m with seen_by_admin := true } else m)

/-- `handle_start_live_username(update, context, username)`: refuse when
the admin already has an active session; otherwise resolve the target
user case-insensitively (creating a placeholder row with null platform
id when absent), open a new active session, drop the user from the
waiting queue and mark their inbound backlog seen. -/
def handle_start_live_username (a : Int) (rawUname : String) (t : Nat) (db : DB) :
    DB × StartReply :=
  match get_active_session db a with
  | some _ => (db, .refusedActive)
  | none =>
    match findByUnameCI db (stripAt rawUname) with
    | some u =>
      ({ db with
         sessions := db.sessions ++ [mkUserSession db.nextSessionId a u.id t]
         nextSessionId := db.nextSessionId + 1
         queue := db.queue.filter (fun e => ¬ e.user_id = u.id)
         messages := markUserSeen u.id db.messages },
       .started (u.telegram_id = none))
    | none =>
      ({ db with
         users := db.users ++ [placeholderUser db.nextUserId (stripAt rawUname) t]
         nextUserId := db.nextUserId + 1
         sessions := db.sessions ++ [mkUserSession db.nextSessionId a db.nextUserId t]
         nextSessionId := db.nextSessionId + 1
         queue := db.queue.filter (fun e => ¬ e.user_id = db.nextUserId)
         messages := markUserSeen db.nextUserId db.messages },
       .started true)

/-- `start_group_session(query, group_id)`: when the group exists,
deactivate any prior active session of the admin and open a new active
group session. -/
def start_group_session (a : Int) (gid : Nat) (t : Nat) (db : DB) :
    DB × GroupStartReply :=
  match db.groups.find? (fun g => g.id = gid) with
  | none => (db, .groupNotFound)
  | some _ =>
    ({ db with
       sessions := deactivateFirst a t db.sessions
         ++ [mkGroupSession db.nextSessionId a gid t]
       nextSessionId := db.nextSessionId + 1 },
     .startedGroup gid)

/-- `end_live_session(query)`: deactivate the admin's active session (a
no-op when none is active), then pop the earliest waiting user and — if
the popped id is truthy and the user row exists — open a new active
user session for them and mark their inbound backlog seen. -/
def end_live_session (a : Int) (t : Nat) (db : DB) : DB × EndReply :=
  match get_active_session db a with
  | none => (db, .nothingToEnd)
  | some _ =>
    match dequeue_next_user db.queue with
    | (some uid, q1) =>
      if ¬ uid = 0 then
        match findUserById db uid with
        | some u =>
          ({ db with
             sessions := deactivateFirst a t db.sessions
               ++ [mkUserSession db.nextSessionId a u.id t]
             nextSessionId := db.nextSessionId + 1
             queue := q1
             messages := markUserSeen u.id db.messages },
           .handedOff u.id)
        | none =>
          ({ db with sessions := deactivateFirst a t db.sessions, queue := q1 },
           .queueEmpty)
      else
        ({ db with sessions := deactivateFirst a t db.sessions, queue := q1 },
         .queueEmpty)
    | (none, _) =>
      ({ db with sessions := deactivateFirst a t db.sessions }, .queueEmpty)

/-- `delete_all_chats(query)`: purge every message and queue entry and
deactivate every admin-session row, stamping its `ended_at`. -/
def delete_all_chats (t : Nat) (db : DB) : DB :=
  { db with
    messages := []
    queue := []
    sessions := db.sessions.map (fun s => { s with is_active := false, ended_at := some t }) }

/-- The content of an inbound private message, as the branches of
`handle_user_message` distinguish it. -/
inductive Content where
  | text (s : Option String)
  | photo (fid : String) (caption : Option String)
  | video (fid : String) (caption : Option String)
  | voice (fid : String) (caption : Option String)
  | document (fid : String) (caption : Option String)
deriving DecidableEq

/-- The `content_type` column value chosen for an inbound message. -/
def contentType : Content → String
  | .text _ => "text"
  | .photo _ _ => "photo"
  | .video _ _ => "video"
  | .voice _ _ => "voice"
  | .document _ _ => "document"

/-- The `file_id` column value chosen for an inbound message. -/
def contentFileId : Content → Option String
  | .text _ => none
  | .photo f _ => some f
  | .video f _ => some f
  | .voice f _ => some f
  | .document f _ => some f

/-- The `text` column value: `message.text`, overridden by a truthy
caption (`if message.caption:`). -/
def textContent : Content → Option String
  | .text s => s
  | .photo _ c => if truthyStr c then c else none
  | .video _ c => if truthyStr c then c else none
  | .voice _ c => if truthyStr c then c else none
  | .document _ c => if truthyStr c then c else none

/-- Observable dispatch decision of `handle_user_message` for a
non-admin private message: either the message was forwarded to the
admin whose active session claims the sender, or the sender was
enqueued and the auto-reply matcher ran (its result attached). -/
inductive RouteResult where
  | forwardedToAdmin (admin : Int)
  | enqueued (autoReply : Option (String × Option String))
deriving DecidableEq

/-- Does this admin's active session claim the user
(`get_active_session` inlined on the sessions table, then
`session.active_user_id == db_user.id`)? -/
def claimCheck (sessions : List AdminSessionRow) (uid : Nat) (a : Int) : Bool :=
  match sessions.find? (activeFor a) with
  | some s => s.active_user_id = some uid
  | none => false

/-- `handle_user_message` (non-admin sender, private chat): resolve the
sender, persist the message, forward to the first claiming admin in
`ADMIN_IDS` order (marking the message seen) — otherwise enqueue the
sender and run the auto-reply matcher. -/
def handle_user_message (adminIds : List Int) (sender : TgUser) (c : Content)
    (now : Nat) (db : DB) : DB × RouteResult :=
  let r := get_or_create_user sender now db
  let db1 := r.1
  let uid := r.2
  let msg : MessageRow :=
    { id := db1.nextMessageId, user_id := uid, from_admin := false,
      content_type := contentType c, text := textContent c,
      file_id := contentFileId c, seen_by_admin := false, timestamp := now }
  let db2 := { db1 with
               messages := db1.messages ++ [msg]
               nextMessageId := db1.nextMessageId + 1 }
  match adminIds.find? (claimCheck db2.sessions uid) with
  | some adm =>
    ({ db2 with messages := db1.messages ++ [{ msg with seen_by_admin := true }] },
     .forwardedToAdmin adm)
  | none =>
    let db3 := { db2 with queue := enqueue_user uid now db2.queue }
    (db3, .enqueued (check_auto_reply (textContent c) db3.autoReplies))

/-- `handle_broadcast_message`: iterate over every `User` row, attempt
one send per row (the transport outcome is the external oracle
`sendOk`, applied to the row's nullable platform id), tallying
successes and failures; no failure stops the loop.  Returns the
success count, the failure count and the ids of rows a delivery was
attempted for, in order. -/
def handle_broadcast_message (sendOk : Option Int → Bool) (users : List UserRow) :
    Nat × Nat × List Nat :=
  match users with
  | [] => (0, 0, [])
  | u :: rest =>
    let r := handle_broadcast_message sendOk rest
    if sendOk u.telegram_id then (r.1 + 1, r.2.1, u.id :: r.2.2)
    else (r.1, r.2.1 + 1, u.id :: r.2.2)

/-- One admin-side operation on the session state, as listed in the
single-active-session claim. -/
inductive Op where
  | startUser (admin : Int) (uname : String) (t : Nat)
  | startGroup (admin : Int) (gid : Nat) (t : Nat)
  | endSession (admin : Int) (t : Nat)
  | purge (t : Nat)

/-- Apply one operation to the database, discarding the reply. -/
def applyOp (db : DB) : Op → DB
  | .startUser a un t => (handle_start_live_username a un t db).1
  | .startGroup a gid t => (start_group_session a gid t db).1
  | .endSession a t => (end_live_session a t db).1
  | .purge t => delete_all_chats t db

/-- Run a sequence of operations from the freshly initialised database. -/
def run (ops : List Op) : DB :=
  ops.foldl applyOp DB.empty

/-- Number of queue entries carried by one user. -/
def countQ (q : List QueueEntry) (u : Nat) : Nat :=
  q.countP (fun e => e.user_id = u)

/-- A small populated database used to instantiate theorems: admin 7
holds an active user session with user 1 (Alice, platform id 42);
user 2 (bob) has never contacted the bot and waits in the queue. -/
def dbT : DB :=
  { users := [{ id := 1, telegram_id := some 42, username := some "Alice",
                first_seen := 0, last_seen := 0 },
              { id := 2, telegram_id := none, username := some "bob",
                first_seen := 0, last_seen := 0 }]
    sessions := [{ id := 1, admin_id := 7, active_user_id := some 1,
                   active_group_id := none, session_type := "user",
                   is_active := true, started_at := 0, ended_at := none }]
    messages := []
    queue := [⟨2, 5⟩]
    groups := [{ id := 1, telegram_id := -100, title := "G" }]
    autoReplies := [⟨"Hi", "hello!", none⟩, ⟨"h", "x", none⟩]
    nextUserId := 3, nextSessionId := 2, nextMessageId := 1 }

/-- A database where admin 7 holds an active *group* session while
user 2 waits in the queue. -/
def dbG : DB :=
  { users := [{ id := 2, telegram_id := some 99, username := some "bob",
                first_seen := 0, last_seen := 0 }]
    sessions := [{ id := 1, admin_id := 7, active_user_id := none,
                   active_group_id := some 1, session_type := "group",
                   is_active := true, started_at := 0, ended_at := none }]
    messages := []
    queue := [⟨2, 5⟩]
    groups := [{ id := 1, telegram_id := -100, title := "G" }]
    autoReplies := []
    nextUserId := 3, nextSessionId := 2, nextMessageId := 1 }

/-- A user table holding a single username-only row (no platform id),
used against the broadcast fan-out. -/
def users9 : List UserRow :=
  [{ id := 1, telegram_id := none, username := some "ghost",
     first_seen := 0, last_seen := 0 }]

/-- Database for the FIFO scenario: users `a`, `b`, `c` wait in the
queue (enqueued at times 1, 2, 3) while admin 7 is in a live session. -/
def fifoDB (a b c : Nat) : DB :=
  { users := [{ id := a, telegram_id := some 100, username := some "ua",
                first_seen := 0, last_seen := 0 },
              { id := b, telegram_id := some 101, username := some "ub",
                first_seen := 0, last_seen := 0 },
              { id := c, telegram_id := some 102, username := some "uc",
                first_seen := 0, last_seen := 0 }]
    sessions := [{ id := 1, admin_id := 7, active_user_id := some 99,
                   active_group_id := none, session_type := "user",
                   is_active := true, started_at := 0, ended_at := none }]
    messages := []
    queue := [⟨a, 1⟩, ⟨b, 2⟩, ⟨c, 3⟩]
    groups := []
    autoReplies := []
    nextUserId := 1000, nextSessionId := 2, nextMessageId := 1 }

theorem find?_decomp {α : Type} {p : α → Bool} {l : List α} {x : α}
    (h : l.find? p = some x) :
    ∃ l1 l2, l = l1 ++ x :: l2 ∧ ∀ y ∈ l1, p y = false := by
  induction l with
  | nil => simp [List.find?] at h
  | cons a as ih =>
    by_cases hpa : p a
    · rw [List.find?_cons_of_pos _ hpa] at h
      have hax : a = x := Option.some.inj h
      subst hax
      exact ⟨[], as, by simp, by simp⟩
    · rw [List.find?_cons_of_neg _ hpa] at h
      obtain ⟨l1, l2, heq, hall⟩ := ih h
      refine ⟨a :: l1, l2, by simp [heq], ?_⟩
      intro y hy
      rcases List.mem_cons.mp hy with rfl | hy2
      · exact Bool.eq_false_iff.mpr hpa
      · exact hall y hy2

theorem find?_of_decomp {α : Type} {p : α → Bool} {l1 l2 : List α} {x : α}
    (hall : ∀ y ∈ l1, p y = false) (hx : p x = true) :
    (l1 ++ x :: l2).find? p = some x := by
  induction l1 with
  | nil => simp [List.find?_cons_of_pos _ hx]
  | cons a as ih =>
    have ha : ¬ p a = true := by simp [hall a (by simp)]
    rw [List.cons_append, List.find?_cons_of_neg _ ha]
    exact ih (fun y hy => hall y (by simp [hy]))

theorem find?_unique {α : Type} {p : α → Bool} {l : List α} {x : α}
    (hmem : x ∈ l) (hx : p x = true) (huniq : ∀ y ∈ l, p y = true → y = x) :
    l.find? p = some x := by
  induction l with
  | nil => simp at hmem
  | cons a as ih =>
    by_cases hpa : p a
    · have : a = x := huniq a (by simp) hpa
      subst this
      simp [List.find?_cons_of_pos _ hpa]
    · rw [List.find?_cons_of_neg _ hpa]
      rcases List.mem_cons.mp hmem with rfl | hmem2
      · exact absurd hx (by simpa using hpa)
      · exact ih hmem2 (fun y hy hpy => huniq y (by simp [hy]) hpy)

theorem find?_append_none {α : Type} {p : α → Bool} {l1 l2 : List α}
    (h : l1.find? p = none) : (l1 ++ l2).find? p = l2.find? p := by
  induction l1 with
  | nil => simp
  | cons a as ih =>
    rw [List.find?_cons] at h
    rcases hpa : p a with _ | _
    · rw [hpa] at h
      simp only [List.cons_append, List.find?_cons, hpa]
      exact ih h
    · rw [hpa] at h; cases h

theorem updateFirst_decomp {α : Type} {p : α → Bool} (f : α → α) {l1 l2 : List α} {x : α}
    (hall : ∀ y ∈ l1, p y = false) (hx : p x = true) :
    updateFirst p f (l1 ++ x :: l2) = l1 ++ f x :: l2 := by
  induction l1 with
  | nil => simp [updateFirst, hx]
  | cons a as ih =>
    have ha : p a = false := hall a (by simp)
    simp only [List.cons_append, updateFirst, ha]
    simp only [Bool.false_eq_true, if_false, List.cons.injEq, true_and]
    exact ih (fun y hy => hall y (by simp [hy]))

theorem updateFirst_length {α : Type} (p : α → Bool) (f : α → α) (l : List α) :
    (updateFirst p f l).length = l.length := by
  induction l with
  | nil => rfl
  | cons a as ih =>
    simp only [updateFirst]
    by_cases hpa : p a <;> simp [hpa, ih]

theorem countActiveL_append (l1 l2 : List AdminSessionRow) (a : Int) :
    countActiveL (l1 ++ l2) a = countActiveL l1 a + countActiveL l2 a :=
  List.countP_append _ _ _

theorem countActiveL_single (ns : AdminSessionRow) (a : Int) :
    countActiveL [ns] a = if activeFor a ns then 1 else 0 := by
  by_cases h : activeFor a ns <;>
    simp [countActiveL, List.countP_cons, h]

theorem countActiveL_zero_of_find?_none {l : List AdminSessionRow} {a : Int}
    (h : l.find? (activeFor a) = none) : countActiveL l a = 0 := by
  rw [List.find?_eq_none] at h
  exact List.countP_eq_zero.mpr (fun s hs => h s hs)

theorem find?_none_of_countActiveL_zero {l : List AdminSessionRow} {a : Int}
    (h : countActiveL l a = 0) : l.find? (activeFor a) = none := by
  rw [List.find?_eq_none]
  exact fun x hx => List.countP_eq_zero.mp h x hx

theorem activeFor_deactivated (b : Int) (s : AdminSessionRow) (t : Nat) :
    activeFor b ({ s with is_active := false, ended_at := some t }) = false := by
  simp [activeFor]

theorem admin_eq_of_activeFor {a : Int} {s : AdminSessionRow}
    (h : activeFor a s = true) : s.admin_id = a := by
  simp only [activeFor, Bool.and_eq_true, decide_eq_true_eq] at h
  exact h.1

theorem countP_updateFirst_self {α : Type} {p : α → Bool} {f : α → α} {l : List α}
    (hf : ∀ x, p x = true → p (f x) = false)
    (h : l.countP p ≤ 1) : (updateFirst p f l).countP p = 0 := by
  induction l with
  | nil => rfl
  | cons x rest ih =>
    by_cases hx : p x
    · have hrest : rest.countP p = 0 := by
        rw [List.countP_cons_of_pos _ _ hx] at h
        omega
      simp only [updateFirst]
      rw [if_pos hx, List.countP_cons_of_neg _ _ (by simp [hf x hx])]
      exact hrest
    · have h2 : rest.countP p ≤ 1 := by
        rw [List.countP_cons_of_neg _ _ hx] at h
        exact h
      simp only [updateFirst]
      rw [if_neg hx, List.countP_cons_of_neg _ _ hx]
      exact ih h2

theorem countP_updateFirst_congr {α : Type} {p q : α → Bool} {f : α → α} (l : List α)
    (hf : ∀ x, p x = true → q (f x) = q x) :
    (updateFirst p f l).countP q = l.countP q := by
  induction l with
  | nil => rfl
  | cons x rest ih =>
    by_cases hx : p x
    · simp only [updateFirst]
      rw [if_pos hx]
      simp only [List.countP_cons, hf x hx]
    · simp only [updateFirst]
      rw [if_neg hx]
      simp only [List.countP_cons, ih]

theorem updateFirst_of_all_false {α : Type} {p : α → Bool} {f : α → α} {l : List α}
    (hall : ∀ y ∈ l, p y = false) : updateFirst p f l = l := by
  induction l with
  | nil => rfl
  | cons x rest ih =>
    simp only [updateFirst]
    rw [if_neg (by simp [hall x (by simp)])]
    rw [ih (fun y hy => hall y (by simp [hy]))]

theorem deactivateFirst_count_self {l : List AdminSessionRow} {a : Int} (t : Nat)
    (h : countActiveL l a ≤ 1) : countActiveL (deactivateFirst a t l) a = 0 :=
  countP_updateFirst_self (fun x _ => activeFor_deactivated a x t) h

theorem deactivateFirst_count_other {l : List AdminSessionRow} {a b : Int} (t : Nat)
    (h : ¬ b = a) : countActiveL (deactivateFirst a t l) b = countActiveL l b := by
  refine countP_updateFirst_congr l (fun x hx => ?_)
  have hadm : x.admin_id = a := admin_eq_of_activeFor hx
  rw [activeFor_deactivated b x t]
  have : activeFor b x = false := by
    simp [activeFor, hadm]
    intro hab
    exact absurd hab.symm h
  rw [this]

theorem deactivateFirst_mem {l : List AdminSessionRow} {a : Int} {s : AdminSessionRow}
    (t : Nat) (h : l.find? (activeFor a) = some s) :
    ({ s with is_active := false, ended_at := some t }) ∈ deactivateFirst a t l := by
  obtain ⟨l1, l2, rfl, hall⟩ := find?_decomp h
  have hs : activeFor a s = true := List.find?_some h
  rw [deactivateFirst, updateFirst_decomp _ hall hs]
  simp

theorem deactivateFirst_none_of_gas_none {db : DB} {a : Int} (t : Nat)
    (h : get_active_session db a = none) :
    deactivateFirst a t db.sessions = db.sessions := by
  refine updateFirst_of_all_false (fun y hy => ?_)
  have := List.find?_eq_none.mp h y hy
  simpa using this

theorem count_append_new {l : List AdminSessionRow} {ns : AdminSessionRow} {b : Int}
    (h0 : countActiveL l ns.admin_id = 0) (hb : countActiveL l b ≤ 1) :
    countActiveL (l ++ [ns]) b ≤ 1 := by
  rw [countActiveL_append, countActiveL_single]
  by_cases hba : b = ns.admin_id
  · subst hba
    rw [h0]
    split <;> omega
  · have : activeFor b ns = false := by
      simp [activeFor]
      intro hadm
      exact absurd hadm.symm hba
    rw [this]
    simpa using hb

theorem count_deact_append_le {l : List AdminSessionRow} {ns : AdminSessionRow}
    {a b : Int} (t : Nat) (hns : ns.admin_id = a) (hb : countActiveL l b ≤ 1) :
    countActiveL (deactivateFirst a t l ++ [ns]) b ≤ 1 := by
  rw [countActiveL_append, countActiveL_single]
  by_cases hba : b = a
  · subst hba
    rw [deactivateFirst_count_self t hb]
    split <;> omega
  · rw [deactivateFirst_count_other t hba]
    have : activeFor b ns = false := by
      simp [activeFor, hns]
      intro hadm
      exact absurd hadm.symm hba
    rw [this]
    simpa using hb

theorem countActive_le_startUser (a b : Int) (un : String) (t : Nat) (db : DB)
    (h : countActive db b ≤ 1) :
    countActive (handle_start_live_username a un t db).1 b ≤ 1 := by
  unfold handle_start_live_username
  split
  · simpa using h
  · rename_i hgas
    have h0 : countActiveL db.sessions a = 0 := countActiveL_zero_of_find?_none hgas
    split
    · simp only [countActive]
      refine count_append_new ?_ h
      simpa [mkUserSession] using h0
    · simp only [countActive]
      refine count_append_new ?_ h
      simpa [mkUserSession] using h0

theorem countActive_le_startGroup (a b : Int) (gid t : Nat) (db : DB)
    (h : countActive db b ≤ 1) :
    countActive (start_group_session a gid t db).1 b ≤ 1 := by
  unfold start_group_session
  split
  · simpa using h
  · simp only [countActive]
    exact count_deact_append_le t rfl h

theorem countActive_le_endSession (a b : Int) (t : Nat) (db : DB)
    (h : countActive db b ≤ 1) :
    countActive (end_live_session a t db).1 b ≤ 1 := by
  have hdeact : countActiveL (deactivateFirst a t db.sessions) b ≤ 1 := by
    by_cases hba : b = a
    · subst hba
      rw [deactivateFirst_count_self t h]
      omega
    · rw [deactivateFirst_count_other t hba]
      exact h
  unfold end_live_session
  split
  · simpa using h
  · split
    · split
      · split
        · simp only [countActive]
          exact count_deact_append_le t rfl h
        · simpa [countActive] using hdeact
      · simpa [countActive] using hdeact
    · simpa [countActive] using hdeact

theorem countActive_le_purge (b : Int) (t : Nat) (db : DB) :
    countActive (delete_all_chats t db) b = 0 := by
  unfold delete_all_chats countActive countActiveL
  rw [List.countP_eq_zero]
  intro s hs
  rw [List.mem_map] at hs
  obtain ⟨s0, _, rfl⟩ := hs
  simp [activeFor]

theorem countActive_le_applyOp (db : DB) (op : Op) (b : Int)
    (h : countActive db b ≤ 1) : countActive (applyOp db op) b ≤ 1 := by
  cases op with
  | startUser a un t => exact countActive_le_startUser a b un t db h
  | startGroup a gid t => exact countActive_le_startGroup a b gid t db h
  | endSession a t => exact countActive_le_endSession a b t db h
  | purge t =>
    rw [applyOp, countActive_le_purge]
    omega

theorem countActive_le_foldl (ops : List Op) (db : DB) (b : Int)
    (h : countActive db b ≤ 1) : countActive (ops.foldl applyOp db) b ≤ 1 := by
  induction ops generalizing db with
  | nil => exact h
  | cons op rest ih => exact ih (applyOp db op) (countActive_le_applyOp db op b h)

theorem minByCreated_mem {q : List QueueEntry} {m : QueueEntry}
    (h : minByCreated q = some m) : m ∈ q := by
  induction q generalizing m with
  | nil => cases h
  | cons e rest ih =>
    unfold minByCreated at h
    split at h
    · cases h
      simp
    · rename_i m2 hr
      split at h
      · cases h
        exact List.mem_cons_of_mem _ (ih hr)
      · cases h
        simp

theorem minByCreated_sorted {e : QueueEntry} {rest : List QueueEntry}
    (hs : List.Pairwise (fun x y => x.created_at < y.created_at) (e :: rest)) :
    minByCreated (e :: rest) = some e := by
  unfold minByCreated
  split
  · rfl
  · rename_i m hr
    have hm : m ∈ rest := minByCreated_mem hr
    have helt : e.created_at < m.created_at := (List.pairwise_cons.mp hs).1 m hm
    rw [if_neg (by omega)]

theorem removeEntry_cons_self (e : QueueEntry) (rest : List QueueEntry) :
    removeEntry e (e :: rest) = rest := by
  simp [removeEntry]

theorem dequeue_cons_sorted {e : QueueEntry} {rest : List QueueEntry}
    (hs : List.Pairwise (fun x y => x.created_at < y.created_at) (e :: rest)) :
    dequeue_next_user (e :: rest) = (some e.user_id, rest) := by
  simp only [dequeue_next_user, minByCreated_sorted hs, removeEntry_cons_self]

theorem countQ_pos_noop {q : List QueueEntry} {u : Nat} (t : Nat)
    (h : 0 < countQ q u) : enqueue_user u t q = q := by
  unfold enqueue_user
  rw [if_pos]
  rw [List.any_eq_true]
  obtain ⟨e, he, hpe⟩ := List.countP_pos_iff.mp h
  exact ⟨e, he, hpe⟩

theorem countQ_enqueue {q : List QueueEntry} {u : Nat} (t : Nat)
    (h : countQ q u ≤ 1) : countQ (enqueue_user u t q) u = 1 := by
  unfold enqueue_user
  by_cases hany : q.any (fun e => e.user_id = u)
  · rw [if_pos hany]
    rw [List.any_eq_true] at hany
    obtain ⟨e, he, hpe⟩ := hany
    have : 0 < countQ q u := List.countP_pos_iff.mpr ⟨e, he, hpe⟩
    omega
  · rw [if_neg hany]
    have h0 : countQ q u = 0 := by
      unfold countQ
      rw [List.countP_eq_zero]
      intro e he
      intro hpe
      exact hany (List.any_eq_true.mpr ⟨e, he, hpe⟩)
    unfold countQ at h0 ⊢
    rw [List.countP_append, h0]
    simp

theorem countQ_foldl_enqueue {q : List QueueEntry} {u : Nat} (ts : List Nat)
    (h : countQ q u = 1) :
    countQ (ts.foldl (fun acc t => enqueue_user u t acc) q) u = 1 := by
  induction ts generalizing q with
  | nil => exact h
  | cons t ts ih =>
    simp only [List.foldl_cons]
    exact ih (countQ_enqueue t (by omega))

theorem autoReplyScan_first {tl : List Char} {l1 : List AutoReplyRow}
    {ar : AutoReplyRow} {l2 : List AutoReplyRow}
    (hall : ∀ b ∈ l1, kwMatches tl b = false) (har : kwMatches tl ar = true) :
    autoReplyScan tl (l1 ++ ar :: l2) = some (ar.reply_text, ar.reply_photo_file_id) := by
  induction l1 with
  | nil =>
    simp only [List.nil_append, autoReplyScan]
    rw [if_pos har]
  | cons x xs ih =>
    have hx : kwMatches tl x = false := hall x (by simp)
    simp only [List.cons_append, autoReplyScan]
    rw [if_neg (by simp [hx])]
    exact ih (fun b hb => hall b (by simp [hb]))

theorem autoReplyScan_none {tl : List Char} {l : List AutoReplyRow}
    (hall : ∀ b ∈ l, kwMatches tl b = false) : autoReplyScan tl l = none := by
  induction l with
  | nil => rfl
  | cons x xs ih =>
    simp only [autoReplyScan]
    rw [if_neg (by simp [hall x (by simp)])]
    exact ih (fun b hb => hall b (by simp [hb]))

theorem goc_found (tg : TgUser) (now : Nat) (db : DB) (ur : UserRow)
    (h : findByTid db tg.id = some ur) :
    get_or_create_user tg now db =
      ({ db with users := updateFirst (fun v => v.telegram_id = some tg.id)
                            (touchSeen tg now) db.users }, ur.id) := by
  unfold findByTid at h
  unfold get_or_create_user
  rw [h]

theorem goc_fixed_tables (tg : TgUser) (now : Nat) (db : DB) :
    (get_or_create_user tg now db).1.sessions = db.sessions ∧
    (get_or_create_user tg now db).1.queue = db.queue ∧
    (get_or_create_user tg now db).1.messages = db.messages ∧
    (get_or_create_user tg now db).1.autoReplies = db.autoReplies ∧
    (get_or_create_user tg now db).1.nextMessageId = db.nextMessageId := by
  unfold get_or_create_user
  split
  · simp
  · split <;> simp

theorem gas_append_new {l : List AdminSessionRow} {a : Int} {ns : AdminSessionRow}
    (hz : countActiveL (deactivateFirst a t l) a = 0)
    (hns : activeFor a ns = true) :
    (deactivateFirst a t l ++ [ns]).find? (activeFor a) = some ns := by
  rw [find?_append_none (find?_none_of_countActiveL_zero hz)]
  rw [List.find?_cons_of_pos _ hns]

theorem count_deact_append_one {l : List AdminSessionRow} {a : Int} {ns : AdminSessionRow}
    (t : Nat) (hc : countActiveL l a ≤ 1) (hns : activeFor a ns = true) :
    countActiveL (deactivateFirst a t l ++ [ns]) a = 1 := by
  rw [countActiveL_append, deactivateFirst_count_self t hc, countActiveL_single, if_pos hns]

theorem markUserSeen_spec (uid : Nat) (l : List MessageRow) :
    ∀ m ∈ markUserSeen uid l, m.user_id = uid → m.from_admin = false →
      m.seen_by_admin = true := by
  intro m hm h1 h2
  unfold markUserSeen at hm
  rw [List.mem_map] at hm
  obtain ⟨m0, _, rfl⟩ := hm
  by_cases hcond : (m0.user_id = uid && ¬ m0.from_admin) = true
  · rw [if_pos hcond]
  · rw [if_neg hcond] at h1 h2 ⊢
    exfalso
    apply hcond
    simp [h1, h2]

theorem activeFor_mkUserSession (a : Int) (sid uid t : Nat) :
    activeFor a (mkUserSession sid a uid t) = true := by
  simp [activeFor, mkUserSession]

theorem end_handoff_step (t : Nat) {db : DB} {a : Int} {s : AdminSessionRow}
    {e : QueueEntry} {q2 : List QueueEntry} {u : UserRow}
    (hs : get_active_session db a = some s)
    (hc : countActive db a ≤ 1)
    (hq : db.queue = e :: q2)
    (hsort : List.Pairwise (fun x y => x.created_at < y.created_at) db.queue)
    (h0 : ¬ e.user_id = 0)
    (hu : findUserById db e.user_id = some u) :
    (end_live_session a t db).2 = .handedOff u.id ∧
    u.id = e.user_id ∧
    (end_live_session a t db).1.queue = q2 ∧
    (end_live_session a t db).1.users = db.users ∧
    get_active_session (end_live_session a t db).1 a
      = some (mkUserSession db.nextSessionId a u.id t) ∧
    countActive (end_live_session a t db).1 a = 1 ∧
    (∀ m ∈ (end_live_session a t db).1.messages,
       m.user_id = u.id → m.from_admin = false → m.seen_by_admin = true) ∧
    ({ s with is_active := false, ended_at := some t })
      ∈ (end_live_session a t db).1.sessions := by
  have hud : u.id = e.user_id := by
    have := List.find?_some hu
    simpa using this
  have hdq : dequeue_next_user db.queue = (some e.user_id, q2) := by
    rw [hq]
    exact dequeue_cons_sorted (hq ▸ hsort)
  have hz : countActiveL (deactivateFirst a t db.sessions) a = 0 :=
    deactivateFirst_count_self t hc
  unfold end_live_session
  simp only [hs, hdq, h0, not_false_iff, if_true, hu]
  refine ⟨by trivial, hud, by trivial, by trivial, ?_, ?_, ?_, ?_⟩
  · exact gas_append_new hz (activeFor_mkUserSession a db.nextSessionId u.id t)
  · exact count_deact_append_one t hc (activeFor_mkUserSession a db.nextSessionId u.id t)
  · exact markUserSeen_spec u.id db.messages
  · exact List.mem_append_left _ (deactivateFirst_mem t hs)

theorem start_group_replaces {db : DB} {a : Int} {gid t : Nat}
    {s : AdminSessionRow} {g : GroupRow}
    (hc : countActive db a ≤ 1)
    (hs : get_active_session db a = some s)
    (hg : db.groups.find? (fun g2 => g2.id = gid) = some g) :
    (start_group_session a gid t db).2 = .startedGroup gid ∧
    countActive (start_group_session a gid t db).1 a = 1 ∧
    (∃ s2, get_active_session (start_group_session a gid t db).1 a = some s2 ∧
       s2.active_group_id = some gid ∧ s2.session_type = "group" ∧
       s2.is_active = true ∧ s2.started_at = t ∧ s2.ended_at = none) ∧
    ({ s with is_active := false, ended_at := some t })
      ∈ (start_group_session a gid t db).1.sessions := by
  have hz : countActiveL (deactivateFirst a t db.sessions) a = 0 :=
    deactivateFirst_count_self t hc
  have hact : activeFor a (mkGroupSession db.nextSessionId a gid t) = true := by
    simp [activeFor, mkGroupSession]
  unfold start_group_session
  simp only [hg]
  refine ⟨by trivial, ?_, ?_, ?_⟩
  · exact count_deact_append_one t hc hact
  · exact ⟨_, gas_append_new hz hact, rfl, rfl, rfl, rfl, rfl⟩
  · exact List.mem_append_left _ (deactivateFirst_mem t hs)

theorem end_noop {db : DB} {a : Int} (t : Nat)
    (h : get_active_session db a = none) :
    end_live_session a t db = (db, .nothingToEnd) := by
  unfold end_live_session
  simp only [h]

theorem end_queueEmpty {db : DB} {a : Int} {s : AdminSessionRow} (t : Nat)
    (hs : get_active_session db a = some s)
    (hc : countActive db a ≤ 1)
    (hq : db.queue = []) :
    (end_live_session a t db).2 = .queueEmpty ∧
    countActive (end_live_session a t db).1 a = 0 := by
  have hdq : dequeue_next_user db.queue = (none, db.queue) := by
    rw [hq]
    rfl
  unfold end_live_session
  simp only [hs, hdq]
  exact ⟨by trivial, deactivateFirst_count_self t hc⟩

/-- C1: single-active-session invariant.  In every state reachable from
the fresh database by any sequence of start-user-session,
start-group-session, end-session and purge operations, every admin
holds at most one active `AdminSession` row. -/
theorem single_active_session_invariant (ops : List Op) (a : Int) :
    countActive (run ops) a ≤ 1 := by
  unfold run
  refine countActive_le_foldl ops DB.empty a ?_
  show countActiveL [] a ≤ 1
  simp [countActiveL]

/-- C6: queue idempotence.  Enqueuing a user already present in the
waiting queue is a no-op, and after enqueuing the same user any
(positive) number of times exactly one queue entry exists for them. -/
theorem queue_idempotence (q : List QueueEntry) (u : Nat) (hq : countQ q u ≤ 1) :
    (countQ q u = 1 → ∀ t, enqueue_user u t q = q) ∧
    (∀ ts : List Nat, ¬ ts = [] →
       countQ (ts.foldl (fun acc t => enqueue_user u t acc) q) u = 1) := by
  refine ⟨fun h1 t => countQ_pos_noop t (by omega), ?_⟩
  intro ts hts
  cases ts with
  | nil => exact absurd rfl hts
  | cons t ts2 =>
    simp only [List.foldl_cons]
    exact countQ_foldl_enqueue ts2 (countQ_enqueue t hq)

/-- Witness for C6 at a concrete queue. -/
theorem queue_idempotence_witness :
    enqueue_user 5 9 [⟨5, 0⟩] = [⟨5, 0⟩] ∧
    countQ ([1, 2].foldl (fun acc t => enqueue_user 5 t acc) [⟨5, 0⟩]) 5 = 1 := by
  have h := queue_idempotence [⟨5, 0⟩] 5 (by decide)
  exact ⟨h.1 (by decide) 9, h.2 [1, 2] (by decide)⟩

/-- C8: auto-reply matching.  With no text no lookup happens; otherwise
the first configured row (in table enumeration order) whose lowercased
keyword is a substring of the lowercased text is returned, and `none`
is returned when no keyword matches. -/
theorem auto_reply_first_match (ars : List AutoReplyRow) (t : String) (ht : ¬ t = "") :
    (check_auto_reply none ars = none) ∧
    (∀ l1 ar l2, ars = l1 ++ ar :: l2 →
       (∀ br ∈ l1, kwMatches (lowerL t) br = false) →
       kwMatches (lowerL t) ar = true →
       check_auto_reply (some t) ars = some (ar.reply_text, ar.reply_photo_file_id)) ∧
    ((∀ ar ∈ ars, kwMatches (lowerL t) ar = false) →
       check_auto_reply (some t) ars = none) := by
  refine ⟨rfl, ?_, ?_⟩
  · intro l1 ar l2 hL hall har
    show (if t = "" then none else autoReplyScan (lowerL t) ars)
      = some (ar.reply_text, ar.reply_photo_file_id)
    rw [if_neg ht, hL]
    exact autoReplyScan_first hall har
  · intro hall
    show (if t = "" then none else autoReplyScan (lowerL t) ars) = none
    rw [if_neg ht]
    exact autoReplyScan_none hall

/-- Witness for C8: the first matching keyword wins, case-insensitively. -/
theorem auto_reply_first_match_witness :
    check_auto_reply (some "oh HI there")
      [⟨"Hi", "hello!", none⟩, ⟨"h", "x", none⟩] = some ("hello!", none) := by
  have h := (auto_reply_first_match [⟨"Hi", "hello!", none⟩, ⟨"h", "x", none⟩]
    "oh HI there" (by decide)).2.1
  exact h [] ⟨"Hi", "hello!", none⟩ [⟨"h", "x", none⟩] rfl (by simp) (by decide)

/-- C9 counterexample: the broadcast loop iterates `db.query(User).all()`
— every user row, not only those with a platform id.  With a single
platform-id-less user the code performs one delivery attempt (which
fails and is tallied), while the claim says no attempt is made. -/
theorem broadcast_attempts_cex :
    (handle_broadcast_message (fun o => o.isSome) users9).2.2 = [1] ∧
    ¬ (handle_broadcast_message (fun o => o.isSome) users9).2.2
        = (users9.filter (fun u => u.telegram_id.isSome)).map UserRow.id ∧
    (handle_broadcast_message (fun o => o.isSome) users9).2.1 = 1 := by
  decide

/-- C9 (amended): broadcast attempts delivery once per known `User` row
(including rows with no platform id, whose sends fail); a failure never
aborts the remaining sends, and the final tally counts successes and
failures over all attempted recipients. -/
theorem broadcast_fanout (sendOk : Option Int → Bool) (users : List UserRow) :
    (handle_broadcast_message sendOk users).2.2 = users.map UserRow.id ∧
    (handle_broadcast_message sendOk users).1
      = users.countP (fun u => sendOk u.telegram_id) ∧
    (handle_broadcast_message sendOk users).2.1
      = users.countP (fun u => !sendOk u.telegram_id) ∧
    (handle_broadcast_message sendOk users).1
      + (handle_broadcast_message sendOk users).2.1 = users.length := by
  induction users with
  | nil => exact ⟨rfl, rfl, rfl, rfl⟩
  | cons u rest ih =>
    obtain ⟨i1, i2, i3, i4⟩ := ih
    unfold handle_broadcast_message
    by_cases hs : sendOk u.telegram_id
    · rw [if_pos hs]
      refine ⟨by simp [i1], ?_, ?_, ?_⟩
      · rw [List.countP_cons_of_pos _ _ (by simpa using hs)]
        simpa using i2
      · rw [List.countP_cons_of_neg _ _ (by simp [hs])]
        simpa using i3
      · simp only [List.length_cons]
        omega
    · rw [if_neg hs]
      refine ⟨by simp [i1], ?_, ?_, ?_⟩
      · rw [List.countP_cons_of_neg _ _ (by simpa using hs)]
        simpa using i2
      · rw [List.countP_cons_of_pos _ _ (by simp [hs])]
        simpa using i3
      · simp only [List.length_cons]
        omega

/-- C10: the delete-all purge deletes every message and queue entry and
deactivates every admin-session row (stamping `ended_at` with the purge
time), so afterwards no admin has an active session and the
single-active-session invariant holds trivially. -/
theorem purge_deactivates_sessions (db : DB) (t : Nat) :
    (delete_all_chats t db).messages = [] ∧
    (delete_all_chats t db).queue = [] ∧
    (delete_all_chats t db).sessions.length = db.sessions.length ∧
    (∀ s ∈ (delete_all_chats t db).sessions,
       s.is_active = false ∧ s.ended_at = some t) ∧
    (∀ a : Int, countActive (delete_all_chats t db) a = 0) := by
  refine ⟨rfl, rfl, by simp [delete_all_chats], ?_, ?_⟩
  · intro s hs
    unfold delete_all_chats at hs
    simp only [List.mem_map] at hs
    obtain ⟨s0, _, rfl⟩ := hs
    exact ⟨rfl, rfl⟩
  · intro a2
    exact countActive_le_purge a2 t db

/-- C2 counterexample: in `dbT` admin 7 already holds an active session,
and `handle_start_live_username` refuses the new user session outright
("You already have an active session. End it first."), leaving the
state untouched — contrary to the claim that a start is never refused
and replaces the prior session. -/
theorem start_user_refused_cex :
    handle_start_live_username 7 "bob" 9 dbT = (dbT, .refusedActive) := by
  decide

/-- C2 (amended): for an admin with an active session, starting a
*group* session deactivates the prior session (stamping `ended_at`) and
activates the new group session, leaving exactly one active session —
the new one; starting a *user* session, however, is refused with no
state change while a session is active. -/
theorem start_session_replacement (db : DB) (a : Int) (gid t : Nat)
    (s : AdminSessionRow) (g : GroupRow)
    (hc : countActive db a ≤ 1)
    (hs : get_active_session db a = some s)
    (hg : db.groups.find? (fun g2 => g2.id = gid) = some g) :
    (countActive (start_group_session a gid t db).1 a = 1 ∧
     (∃ s2, get_active_session (start_group_session a gid t db).1 a = some s2 ∧
        s2.active_group_id = some gid ∧ s2.session_type = "group" ∧
        s2.is_active = true ∧ s2.started_at = t ∧ s2.ended_at = none) ∧
     ({ s with is_active := false, ended_at := some t })
       ∈ (start_group_session a gid t db).1.sessions) ∧
    (∀ un, handle_start_live_username a un t db = (db, .refusedActive)) := by
  obtain ⟨_, h1, h2, h3⟩ := start_group_replaces hc hs hg
  refine ⟨⟨h1, h2, h3⟩, ?_⟩
  intro un
  unfold handle_start_live_username
  simp only [hs]

/-- Witness for C2 (amended) on `dbT`. -/
theorem start_session_replacement_witness :
    countActive (start_group_session 7 1 9 dbT).1 7 = 1 ∧
    handle_start_live_username 7 "x" 9 dbT = (dbT, .refusedActive) := by
  have h := start_session_replacement dbT 7 1 9
    ⟨1, 7, some 1, none, "user", true, 0, none⟩ ⟨1, -100, "G"⟩
    (by decide) (by decide) (by decide)
  exact ⟨h.1.1, h.2 "x"⟩

/-- C3 counterexample: in `dbG` admin 7's active session is a *group*
session and user 2 waits in the queue; `end_live_session` nevertheless
dequeues user 2 and opens a user session with them, so the queue is
drained and the admin is not idle — contrary to the claim that a group
session's end leaves the queue unchanged and the admin idle. -/
theorem end_group_session_handoff_cex :
    (end_live_session 7 9 dbG).2 = .handedOff 2 ∧
    (end_live_session 7 9 dbG).1.queue = [] ∧
    countActive (end_live_session 7 9 dbG).1 7 = 1 := by
  decide

/-- C3 (amended): ending with no active session is a no-op reported as
nothing to end; ending an active session of *either* type with a
nonempty queue dequeues the oldest waiting user and opens a new user
session for them under the same admin, marking their inbound backlog
seen; ending with an empty queue just deactivates, leaving the admin
with no active session. -/
theorem end_session_behaviour (db : DB) (a : Int) (t : Nat) :
    (get_active_session db a = none →
       end_live_session a t db = (db, .nothingToEnd)) ∧
    (∀ s e q2 u, get_active_session db a = some s → countActive db a ≤ 1 →
       db.queue = e :: q2 →
       List.Pairwise (fun x y => x.created_at < y.created_at) db.queue →
       ¬ e.user_id = 0 → findUserById db e.user_id = some u →
       (end_live_session a t db).2 = .handedOff u.id ∧
       (end_live_session a t db).1.queue = q2 ∧
       (∃ s2, get_active_session (end_live_session a t db).1 a = some s2 ∧
          s2.active_user_id = some e.user_id ∧ s2.session_type = "user" ∧
          s2.is_active = true) ∧
       (∀ m ∈ (end_live_session a t db).1.messages,
          m.user_id = u.id → m.from_admin = false → m.seen_by_admin = true)) ∧
    (∀ s, get_active_session db a = some s → countActive db a ≤ 1 →
       db.queue = [] →
       (end_live_session a t db).2 = .queueEmpty ∧
       countActive (end_live_session a t db).1 a = 0) := by
  refine ⟨fun h => end_noop t h, ?_, ?_⟩
  · intro s e q2 u hs hc hq hsort h0 hu
    obtain ⟨r1, hud, r2, _, r4, _, r6, _⟩ := end_handoff_step t hs hc hq hsort h0 hu
    refine ⟨r1, r2, ⟨_, r4, ?_, rfl, rfl⟩, r6⟩
    show some u.id = some e.user_id
    rw [hud]
  · intro s hs hc hq
    exact end_queueEmpty t hs hc hq

/-- Witness for C3 on `dbT`: a no-op end for admin 9 and a handoff to
user 2 for admin 7. -/
theorem end_session_behaviour_witness :
    end_live_session 9 9 dbT = (dbT, .nothingToEnd) ∧
    (end_live_session 7 9 dbT).2 = .handedOff 2 := by
  refine ⟨(end_session_behaviour dbT 9 9).1 (by decide), ?_⟩
  have h := (end_session_behaviour dbT 7 9).2.1
    ⟨1, 7, some 1, none, "user", true, 0, none⟩ ⟨2, 5⟩ []
    ⟨2, none, some "bob", 0, 0⟩
    (by decide) (by decide) (by decide) (by simp [dbT]) (by decide) (by decide)
  exact h.1

/-- C4: routing exclusivity.  When the sender resolves to a known user
claimed by the active session of the (unique) claiming admin among
`ADMIN_IDS`, the inbound message — whatever its content — is persisted
marked `seen_by_admin`, the dispatch decision is a forward to that
admin (so no auto-reply is produced), and the waiting queue is left
untouched. -/
theorem routing_exclusivity (adminIds : List Int) (sender : TgUser) (c : Content)
    (now : Nat) (db : DB) (ur : UserRow) (adm : Int)
    (hur : findByTid db sender.id = some ur)
    (hadm : adm ∈ adminIds)
    (hclaim : claimCheck db.sessions ur.id adm = true)
    (huniq : ∀ a2 ∈ adminIds, claimCheck db.sessions ur.id a2 = true → a2 = adm) :
    (handle_user_message adminIds sender c now db).2 = .forwardedToAdmin adm ∧
    (handle_user_message adminIds sender c now db).1.queue = db.queue ∧
    (∃ m, (handle_user_message adminIds sender c now db).1.messages.getLast?
        = some m ∧
      m.seen_by_admin = true ∧ m.user_id = ur.id ∧ m.from_admin = false ∧
      m.content_type = contentType c ∧ m.text = textContent c) := by
  have hgoc := goc_found sender now db ur hur
  have hfind : adminIds.find? (claimCheck db.sessions ur.id) = some adm :=
    find?_unique hadm hclaim huniq
  unfold handle_user_message
  rw [hgoc]
  simp only [hfind]
  refine ⟨by trivial, by trivial, ?_⟩
  exact ⟨_, List.getLast?_concat _, rfl, rfl, rfl, rfl, rfl⟩

/-- Witness for C4 on `dbT`: Alice (platform id 42) is claimed by
admin 7's active session. -/
theorem routing_exclusivity_witness :
    (handle_user_message [7] ⟨42, some "Alice"⟩ (.text (some "yo")) 9 dbT).2
      = .forwardedToAdmin 7 ∧
    (handle_user_message [7] ⟨42, some "Alice"⟩ (.text (some "yo")) 9 dbT).1.queue
      = dbT.queue := by
  have h := routing_exclusivity [7] ⟨42, some "Alice"⟩ (.text (some "yo")) 9 dbT
    ⟨1, some 42, some "Alice", 0, 0⟩ 7 (by decide) (by decide) (by decide) (by decide)
  exact ⟨h.1, h.2.1⟩

/-- C5: FIFO order.  `dequeue_next_user` pops the entry with the
earliest `created_at` (none on an empty queue), and from a state where
users `a`, `b`, `c` were enqueued in that order, three successive
session ends hand off to `a`, then `b`, then `c`. -/
theorem fifo_order (a b c : Nat) (ha : ¬ a = 0) (hb : ¬ b = 0) (hc : ¬ c = 0)
    (hab : ¬ a = b) (hac : ¬ a = c) (hbc : ¬ b = c) :
    (dequeue_next_user ([] : List QueueEntry) = (none, []) ∧
     (∀ e q2, List.Pairwise (fun x y => x.created_at < y.created_at) (e :: q2) →
        dequeue_next_user (e :: q2) = (some e.user_id, q2))) ∧
    ((end_live_session 7 10 (fifoDB a b c)).2 = .handedOff a ∧
     (end_live_session 7 11 (end_live_session 7 10 (fifoDB a b c)).1).2
       = .handedOff b ∧
     (end_live_session 7 12
        (end_live_session 7 11 (end_live_session 7 10 (fifoDB a b c)).1).1).2
       = .handedOff c) := by
  refine ⟨⟨rfl, fun e q2 hs => dequeue_cons_sorted hs⟩, ?_⟩
  have hu1 : findUserById (fifoDB a b c) ((⟨a, 1⟩ : QueueEntry).user_id)
      = some ⟨a, some 100, some "ua", 0, 0⟩ := by
    unfold findUserById
    simp only [fifoDB]
    rw [List.find?_cons_of_pos _ (by simp)]
  obtain ⟨r1, _, r2, r3, r4, r5, _, _⟩ := end_handoff_step 10
    (show get_active_session (fifoDB a b c) 7
       = some ⟨1, 7, some 99, none, "user", true, 0, none⟩ from rfl)
    (show countActive (fifoDB a b c) 7 ≤ 1 from Nat.le_refl 1)
    (show (fifoDB a b c).queue = ⟨a, 1⟩ :: [⟨b, 2⟩, ⟨c, 3⟩] from rfl)
    (by simp [fifoDB, List.pairwise_cons])
    ha hu1
  have hu2 : findUserById (end_live_session 7 10 (fifoDB a b c)).1
      ((⟨b, 2⟩ : QueueEntry).user_id) = some ⟨b, some 101, some "ub", 0, 0⟩ := by
    unfold findUserById
    rw [r3]
    simp only [fifoDB]
    rw [List.find?_cons_of_neg _ (by simp [hab]), List.find?_cons_of_pos _ (by simp)]
  obtain ⟨r1', _, r2', r3', r4', r5', _, _⟩ := end_handoff_step 11
    r4 (le_of_eq r5)
    (show (end_live_session 7 10 (fifoDB a b c)).1.queue = ⟨b, 2⟩ :: [⟨c, 3⟩] from r2)
    (by rw [r2]; simp [List.pairwise_cons])
    hb hu2
  have hu3 : findUserById
      (end_live_session 7 11 (end_live_session 7 10 (fifoDB a b c)).1).1
      ((⟨c, 3⟩ : QueueEntry).user_id) = some ⟨c, some 102, some "uc", 0, 0⟩ := by
    unfold findUserById
    rw [r3', r3]
    simp only [fifoDB]
    rw [List.find?_cons_of_neg _ (by simp [hac]),
        List.find?_cons_of_neg _ (by simp [hbc]),
        List.find?_cons_of_pos _ (by simp)]
  obtain ⟨r1'', _, _, _, _, _, _, _⟩ := end_handoff_step 12
    r4' (le_of_eq r5')
    (show (end_live_session 7 11 (end_live_session 7 10 (fifoDB a b c)).1).1.queue
       = ⟨c, 3⟩ :: [] from r2')
    (by rw [r2']; simp)
    hc hu3
  exact ⟨r1, r1', r1''⟩

/-- Witness for C5 at users 1, 2, 3. -/
theorem fifo_order_witness :
    (end_live_session 7 10 (fifoDB 1 2 3)).2 = .handedOff 1 ∧
    (end_live_session 7 11 (end_live_session 7 10 (fifoDB 1 2 3)).1).2
      = .handedOff 2 ∧
    (end_live_session 7 12
       (end_live_session 7 11 (end_live_session 7 10 (fifoDB 1 2 3)).1).1).2
      = .handedOff 3 :=
  (fifo_order 1 2 3 (by decide) (by decide) (by decide)
    (by decide) (by decide) (by decide)).2

/-- C7: identity reconciliation.  When a sender with platform id `P`
and (truthy) username `N` is unknown by platform id but a username-only
row matches `N` case-insensitively, that row is claimed in place — no
row is added, the row gains platform id `P` and username `N`, and both
the platform-id lookup and the case-insensitive username lookup return
that same row afterwards; rows whose platform id is already non-null
are never touched by the reconciliation. -/
theorem identity_reconciliation (db : DB) (P : Int) (N : String) (now : Nat)
    (r : UserRow)
    (hP : findByTid db P = none)
    (hN : ¬ N = "")
    (hr : findByUnameCI db N = some r)
    (hnull : r.telegram_id = none) :
    ((get_or_create_user ⟨P, some N⟩ now db).1.users.length = db.users.length ∧
     (get_or_create_user ⟨P, some N⟩ now db).2 = r.id ∧
     (∃ r2, findByTid (get_or_create_user ⟨P, some N⟩ now db).1 P = some r2 ∧
        r2.id = r.id ∧ r2.telegram_id = some P ∧ r2.username = some N) ∧
     (∃ r3, findByUnameCI (get_or_create_user ⟨P, some N⟩ now db).1 N = some r3 ∧
        r3.id = r.id)) ∧
    (∀ v ∈ db.users, ¬ v.telegram_id = none →
       v ∈ (get_or_create_user ⟨P, some N⟩ now db).1.users) := by
  have hm : unameMatchCI r N = true := by
    have := List.find?_some (by unfold findByUnameCI at hr; exact hr)
    exact this
  have hrec : reconcilable ⟨P, some N⟩ r = true := by
    simp [reconcilable, truthyStr, hN, hm, hnull]
  unfold findByUnameCI at hr
  obtain ⟨l1, l2, hL, hall⟩ := find?_decomp hr
  have hall2 : ∀ y ∈ l1, reconcilable ⟨P, some N⟩ y = false := by
    intro y hy
    simp [reconcilable, hall y hy]
  have hfrec : db.users.find? (reconcilable ⟨P, some N⟩) = some r := by
    rw [hL]
    exact find?_of_decomp hall2 hrec
  unfold findByTid at hP
  have htid_all : ∀ y ∈ db.users, (decide (y.telegram_id = some P)) = false := by
    intro y hy
    have := List.find?_eq_none.mp hP y hy
    simpa using this
  have hupd : updateFirst (reconcilable ⟨P, some N⟩) (claimRow ⟨P, some N⟩ now)
      db.users = l1 ++ claimRow ⟨P, some N⟩ now r :: l2 := by
    rw [hL]
    exact updateFirst_decomp _ hall2 hrec
  have hstep : get_or_create_user ⟨P, some N⟩ now db
      = ({ db with users := updateFirst (reconcilable ⟨P, some N⟩)
                              (claimRow ⟨P, some N⟩ now) db.users }, r.id) := by
    unfold get_or_create_user
    simp only [hP, hfrec]
  rw [hstep]
  refine ⟨⟨?_, rfl, ?_, ?_⟩, ?_⟩
  · exact updateFirst_length _ _ _
  · refine ⟨claimRow ⟨P, some N⟩ now r, ?_, rfl, rfl, rfl⟩
    unfold findByTid
    simp only [hupd]
    refine find?_of_decomp ?_ (by simp [claimRow])
    intro y hy
    have hymem : y ∈ db.users := by
      rw [hL]
      exact List.mem_append_left _ hy
    exact htid_all y hymem
  · refine ⟨claimRow ⟨P, some N⟩ now r, ?_, rfl⟩
    unfold findByUnameCI
    simp only [hupd]
    exact find?_of_decomp (fun y hy => hall y hy) (by simp [claimRow, unameMatchCI])
  · intro v hv hvnull
    simp only [hupd]
    rw [hL] at hv
    rcases List.mem_append.mp hv with h1 | h2
    · exact List.mem_append_left _ h1
    · rcases List.mem_cons.mp h2 with rfl | h3
      · exact absurd hnull hvnull
      · exact List.mem_append_right _ (List.mem_cons_of_mem _ h3)

/-- Witness for C7 on `dbT`: sender 55/"BOB" claims the username-only
"bob" row in place. -/
theorem identity_reconciliation_witness :
    (get_or_create_user ⟨55, some "BOB"⟩ 9 dbT).1.users.length
      = dbT.users.length ∧
    (get_or_create_user ⟨55, some "BOB"⟩ 9 dbT).2 = 2 := by
  have h := identity_reconciliation dbT 55 "BOB" 9 ⟨2, none, some "bob", 0, 0⟩
    (by decide) (by decide) (by decide) (by decide)
  exact ⟨h.1.1, h.1.2.1⟩

end Relay
